import Mathlib

/-!
Verification of the account acquisition and diversity sampling pipeline of the
persona-simulator repository.

Each Python function referenced by a claim is embedded as a Lean definition that
mirrors its control flow.  Wall-clock time, network I/O and randomness are made
explicit parameters:
* random.sample / random.shuffle are modelled by a caller-supplied selection
  function constrained by hypotheses (length and sub-permutation);
* network calls are modelled by oracle functions, with an effect record saying
  which calls were issued;
* float arithmetic is modelled over the rationals / reals.
-/

namespace PersonaSim

/-! ## String helpers (Python str.lstrip, substring containment) -/

/-- Python str.lstrip("@"): drop every leading at-sign. -/
def lstripAt (s : String) : String :=
  String.mk (s.toList.dropWhile (fun c => c == '@'))

/-- Substring test on character lists: Python needle in hay. -/
def charsContain (hay needle : List Char) : Bool :=
  match hay with
  | [] => needle.isEmpty
  | _ :: rest => needle.isPrefixOf hay || charsContain rest needle

/-- Python substring containment: needle in hay. -/
def strContains (hay needle : String) : Bool :=
  charsContain hay.toList needle.toList

/-- Python str.lower (ASCII case folding, character by character). -/
def strToLower (s : String) : String :=
  String.mk (s.toList.map Char.toLower)

/-- Python str.startswith. -/
def strStartsWith (s pre : String) : Bool :=
  pre.toList.isPrefixOf s.toList

/-! ## Account records (dict rows flowing through diversity_sampling.py)

A candidate dict is modelled as a structure.  The fields read or written by the
embedded functions are explicit; every other key of the Python dict is kept in
the opaque extra payload, which lets frame conditions be stated exactly. -/

structure Account where
  handle : String := ""
  location : String := ""
  description : String := ""
  followers_count : Int := 0
  tweet_count : Int := 0
  last_tweet_at : Option String := none
  account_created_at : Option String := none
  region : String := "unknown"
  language : String := "unknown"
  dominant_sentiment : String := "neutral"
  extra : List (String × String) := []
  deriving DecidableEq, Repr

/-! ## DiversitySampler._get_follower_stratum (diversity_sampling.py:484-488) -/

/-- FOLLOWER_STRATA lookup: first bucket with low <= followers < high wins;
negative counts match no bucket and yield "unknown". -/
def followerStratum (followers : Int) : String :=
  if 0 ≤ followers ∧ followers < 100 then "micro"
  else if 100 ≤ followers ∧ followers < 1000 then "small"
  else if 1000 ≤ followers ∧ followers < 10000 then "medium"
  else if 10000 ≤ followers ∧ followers < 100000 then "large"
  else if 100000 ≤ followers ∧ followers < 1000000 then "macro"
  else if 1000000 ≤ followers then "mega"
  else "unknown"

/-! ## DiversitySampler._deduplicate_accounts (diversity_sampling.py:265-274) -/

/-- Normalised key used by deduplication:
account.get("handle", "").lstrip("@").lower(). -/
def dedupKey (a : Account) : String :=
  strToLower (lstripAt a.handle)

/-- Loop of _deduplicate_accounts with the seen-set made explicit. -/
def dedupGo (seen : List String) : List Account → List Account
  | [] => []
  | a :: rest =>
    let h := dedupKey a
    if h ≠ "" ∧ h ∉ seen then a :: dedupGo (h :: seen) rest
    else dedupGo seen rest

/-- _deduplicate_accounts: keep an account iff its key is nonempty and unseen. -/
def deduplicateAccounts (accounts : List Account) : List Account :=
  dedupGo [] accounts

/-! ### Dedup lemmas -/

theorem dedupGo_sublist (seen : List String) (accounts : List Account) :
    List.Sublist (dedupGo seen accounts) accounts := by
  induction accounts generalizing seen with
  | nil => simp [dedupGo]
  | cons a rest ih =>
    simp only [dedupGo]
    split
    · exact List.Sublist.cons₂ a (ih _)
    · exact List.Sublist.cons a (ih _)

theorem dedupGo_filter (accounts : List Account) (seen : List String) (k : String)
    (hk : k ≠ "") :
    (dedupGo seen accounts).filter (fun a => dedupKey a == k) =
      if k ∈ seen then []
      else (accounts.filter (fun a => dedupKey a == k)).take 1 := by
  induction accounts generalizing seen with
  | nil => simp [dedupGo]
  | cons a rest ih =>
    by_cases hmem : dedupKey a = k
    · subst hmem
      by_cases hseen : dedupKey a ∈ seen
      · have hkeep : ¬(dedupKey a ≠ "" ∧ dedupKey a ∉ seen) := by
          intro h
          exact h.2 hseen
        simp only [dedupGo, if_neg hkeep]
        rw [ih seen]
        simp [hseen]
      · have hkeep : dedupKey a ≠ "" ∧ dedupKey a ∉ seen := ⟨hk, hseen⟩
        simp only [dedupGo, if_pos hkeep, List.filter_cons]
        rw [ih (dedupKey a :: seen)]
        simp [hseen]
    · have hne : (dedupKey a == k) = false := by
        simp [hmem]
      by_cases hkeep : dedupKey a ≠ "" ∧ dedupKey a ∉ seen
      · simp only [dedupGo, if_pos hkeep, List.filter_cons, hne]
        rw [ih (dedupKey a :: seen)]
        have hkne : ¬(k = dedupKey a) := fun h => hmem h.symm
        simp [List.mem_cons, hkne]
      · simp only [dedupGo, if_neg hkeep]
        rw [ih seen]
        simp [List.filter_cons, hne]

/-- The four-handle pool named by the spec for deduplication. -/
def dedupClaimPool : List Account :=
  [{ handle := "user1" }, { handle := "@user1" },
   { handle := "USER1" }, { handle := " user1 " }]

/-- The same pool without the whitespace-padded handle. -/
def dedupPoolNoWs : List Account :=
  [{ handle := "user1" }, { handle := "@user1" }, { handle := "USER1" }]

/-- C7 counterexample: the claim says the handles
["user1", "@user1", "USER1", " user1 "] deduplicate to exactly one candidate,
but _deduplicate_accounts only strips leading at-signs (lstrip("@")), not
whitespace, so " user1 " keeps a distinct key and the result has two entries. -/
theorem C7_dedup_counterexample :
    (deduplicateAccounts dedupClaimPool).length = 2 ∧
    ¬(deduplicateAccounts dedupClaimPool).length = 1 := by
  decide

/-- C7 (amended): deduplication keeps the first occurrence per case-insensitive,
leading-sigil-stripped handle and drops every later duplicate of that key;
whitespace is not stripped, so ["user1", "@user1", "USER1"] deduplicate to
exactly one candidate while " user1 " would stay separate.  The result is a
sublist of the input, and for every nonempty key the kept entries are exactly
the first input entry with that key. -/
theorem C7_dedup_first_occurrence :
    (∀ accounts : List Account,
      List.Sublist (deduplicateAccounts accounts) accounts) ∧
    (∀ (accounts : List Account) (k : String), k ≠ "" →
      (deduplicateAccounts accounts).filter (fun a => dedupKey a == k) =
        (accounts.filter (fun a => dedupKey a == k)).take 1) ∧
    (deduplicateAccounts dedupPoolNoWs).length = 1 := by
  refine ⟨fun accounts => dedupGo_sublist [] accounts, fun accounts k hk => ?_, by decide⟩
  have h := dedupGo_filter accounts [] k hk
  simpa [deduplicateAccounts] using h

/-- Witness for C7: the amended theorem applied at the concrete pools. -/
theorem C7_dedup_witness :
    List.Sublist (deduplicateAccounts dedupPoolNoWs) dedupPoolNoWs ∧
    (deduplicateAccounts dedupPoolNoWs).filter (fun a => dedupKey a == "user1") =
      (dedupPoolNoWs.filter (fun a => dedupKey a == "user1")).take 1 :=
  ⟨C7_dedup_first_occurrence.1 dedupPoolNoWs,
   C7_dedup_first_occurrence.2.1 dedupPoolNoWs "user1" (by decide)⟩

/-! ## XAPIClient._wait_for_rate_limit_reset (x_api.py:71-146)

The routine is a function of: presence of the x-rate-limit-reset header,
the reset delta (reset_time - now, seconds), the max_wait_seconds argument,
the attempt counter, and the random.uniform(0, 0.3) draw.  The result records
the seconds passed to time.sleep (0 when no sleep happens) and the returned
boolean (true = proceed / retry, false = cannot proceed). -/

def waitForRateLimitReset (hasResetHeader : Bool) (baseWait : ℚ) (maxWait : ℤ)
    (attempt : ℕ) (jitterDraw : ℚ) : ℚ × Bool :=
  if ¬hasResetHeader then (0, false)
  else if baseWait ≤ 0 then (0, true)
  else if maxWait ≤ 0 then (0, false)
  else
    let backoff : ℚ := min ((2 : ℚ) ^ attempt) 60
    let jitter := jitterDraw * backoff
    let wait := baseWait + backoff + jitter
    if (maxWait : ℚ) < wait then (0, false) else (wait, true)

/-- The wait the claim describes: server reset delta plus min(2^attempt, 60)
seconds of exponential backoff plus jitter (the uniform draw times the
backoff). -/
def requiredWait (baseWait : ℚ) (attempt : ℕ) (jitterDraw : ℚ) : ℚ :=
  baseWait + min ((2 : ℚ) ^ attempt) 60 + jitterDraw * min ((2 : ℚ) ^ attempt) 60

/-- C2: the rate-limit wait routine never sleeps longer than max_wait_seconds;
whenever a positive wait is actually pending (the server reset delta is
positive) and the computed required wait exceeds max_wait_seconds, it returns
the cannot-proceed result without sleeping at all; and max_wait_seconds = 0
turns the pending sleep into an immediate failure surfaced to the caller. -/
theorem C2_wait_bound (hasResetHeader : Bool) (baseWait : ℚ) (maxWait : ℤ)
    (attempt : ℕ) (jitterDraw : ℚ) :
    (waitForRateLimitReset hasResetHeader baseWait maxWait attempt jitterDraw).1
        ≤ max (maxWait : ℚ) 0 ∧
    (0 < baseWait →
      (maxWait : ℚ) < requiredWait baseWait attempt jitterDraw →
      waitForRateLimitReset hasResetHeader baseWait maxWait attempt jitterDraw
        = (0, false)) ∧
    (maxWait = 0 → hasResetHeader = true → 0 < baseWait →
      waitForRateLimitReset hasResetHeader baseWait maxWait attempt jitterDraw
        = (0, false)) := by
  simp only [waitForRateLimitReset, requiredWait]
  split_ifs with h1 h2 h3 h4
  · exact ⟨by simp,
      fun hb _ => absurd h2 (not_le.mpr hb),
      fun _ _ hb => absurd h2 (not_le.mpr hb)⟩
  · exact ⟨by simp, fun _ _ => rfl, fun _ _ _ => rfl⟩
  · exact ⟨by simp, fun _ _ => rfl, fun _ _ _ => rfl⟩
  · refine ⟨?_, fun _ hreq => absurd hreq h4, fun hmw _ _ => ?_⟩
    · have hle : baseWait + min ((2 : ℚ) ^ attempt) 60
          + jitterDraw * min ((2 : ℚ) ^ attempt) 60 ≤ (maxWait : ℚ) := not_lt.mp h4
      exact le_trans hle (le_max_left _ _)
    · exact absurd (le_of_eq hmw) h3
  · exact ⟨by simp, fun _ _ => rfl, fun _ _ _ => rfl⟩

/-- Witness for C2: with the reset five seconds away and max_wait_seconds = 0,
the routine sleeps zero seconds and fails immediately. -/
theorem C2_wait_witness :
    waitForRateLimitReset true 5 0 0 0 = (0, false) ∧
    (waitForRateLimitReset true 5 0 0 0).1 ≤ max ((0 : ℤ) : ℚ) 0 :=
  ⟨(C2_wait_bound true 5 0 0 0).2.2 rfl rfl (by norm_num),
   (C2_wait_bound true 5 0 0 0).1⟩

/-! ## GrokAPI.check_account_quality (grok_api.py:1246-1437), metrics branch

The scoring path taken when real metrics are available is embedded as a pure
function of the metrics.  last_tweet_at only enters through days_inactive
(now minus the parsed date); a missing or unparsable date is the none case.
Floats are modelled as rationals. -/

/-- QUALITY_THRESHOLDS (grok_api.py:82-87), kept abstract so the thresholds
stay externally tunable. -/
structure Thresholds where
  min_followers : ℤ
  min_tweet_count : ℤ
  max_days_inactive : ℤ
  min_quality_score : ℚ

/-- The default QUALITY_THRESHOLDS values. -/
def defaultThresholds : Thresholds :=
  { min_followers := 100, min_tweet_count := 50,
    max_days_inactive := 180, min_quality_score := 6 / 10 }

/-- Follower sub-score (grok_api.py:1315-1325). -/
def followersNorm (th : Thresholds) (followers : Option ℤ) : ℚ :=
  match followers with
  | none => 0
  | some f =>
    if 10000 ≤ f then 1
    else if 1000 ≤ f then 1 / 2 + (1 / 2) * (((f : ℚ) - 1000) / 9000)
    else if th.min_followers ≤ f then (3 / 10) * ((f : ℚ) / (th.min_followers : ℚ))
    else (1 / 10) * ((f : ℚ) / (th.min_followers : ℚ))

/-- Recency sub-score (grok_api.py:1331-1352). -/
def recencyNorm (th : Thresholds) (daysInactive : Option ℤ) : ℚ :=
  match daysInactive with
  | none => 0
  | some d =>
    if d ≤ 30 then 1
    else if d ≤ 90 then 7 / 10
    else if d ≤ th.max_days_inactive then 3 / 10
    else 0

/-- Post-count sub-score (grok_api.py:1355-1365). -/
def postcountNorm (th : Thresholds) (tweetCount : Option ℤ) : ℚ :=
  match tweetCount with
  | none => 0
  | some t =>
    if 1000 ≤ t then 1
    else if th.min_tweet_count ≤ t then
      1 / 2 + (1 / 2) * (((t : ℚ) - (th.min_tweet_count : ℚ)) / 950)
    else (3 / 10) * ((t : ℚ) / (th.min_tweet_count : ℚ))

/-- Final score (grok_api.py:1367-1369): weighted sum clamped to [0, 1]. -/
def qualityScoreMetrics (th : Thresholds) (followers tweetCount daysInactive : Option ℤ) : ℚ :=
  let score := (1 / 2) * followersNorm th followers
    + (3 / 10) * recencyNorm th daysInactive
    + (1 / 5) * postcountNorm th tweetCount
  max 0 (min 1 score)

/-- passed flag (grok_api.py:1371-1393 and the handle check at 1414-1418):
starts true and is forced false by any hard-fail condition. -/
def qualityPassedMetrics (th : Thresholds) (followers tweetCount daysInactive : Option ℤ)
    (handle : String) : Bool :=
  let followersFail := match followers with
    | some f => decide (f < th.min_followers)
    | none => false
  let tweetFail := match tweetCount with
    | some t => decide (t < th.min_tweet_count)
    | none => false
  let inactiveFail := match daysInactive with
    | some d => decide (th.max_days_inactive < d)
    | none => false
  let scoreFail :=
    decide (qualityScoreMetrics th followers tweetCount daysInactive < th.min_quality_score)
  let handleFail := decide (handle.length < 3) || decide (15 < handle.length)
  !(followersFail || tweetFail || inactiveFail || scoreFail || handleFail)

/-- C5 counterexample: the claim says every sub-score is normalized to [0, 1],
but at followers_count = 500 (metrics available, default min_followers = 100)
the follower sub-score is 0.3 * (500 / 100) = 1.5 > 1. -/
theorem C5_quality_counterexample :
    followersNorm defaultThresholds (some 500) = 3 / 2 ∧
    ¬followersNorm defaultThresholds (some 500) ≤ 1 := by
  norm_num [followersNorm, defaultThresholds]

/-- C5 (amended): the final quality score is the weighted sum
0.5 * follower + 0.3 * recency + 0.2 * activity clamped to [0, 1]; the recency
and activity sub-scores lie in [0, 1] and the follower sub-score saturates to 1
at >= 10000 followers with the linear ramp 0.5 -> 1.0 on [1000, 10000); but on
[min_followers, 1000) the follower sub-score equals 0.3 * f / min_followers and
can exceed 1 (only the final score is clamped).  followers_count below
min_followers forces passed = false regardless of the computed score. -/
theorem C5_quality_amended :
    (∀ (th : Thresholds) (f t d : Option ℤ),
      0 ≤ qualityScoreMetrics th f t d ∧ qualityScoreMetrics th f t d ≤ 1) ∧
    (∀ d : Option ℤ,
      0 ≤ recencyNorm defaultThresholds d ∧ recencyNorm defaultThresholds d ≤ 1) ∧
    (∀ t : ℤ, 0 ≤ t →
      0 ≤ postcountNorm defaultThresholds (some t) ∧
      postcountNorm defaultThresholds (some t) ≤ 1) ∧
    (∀ f : ℤ, 10000 ≤ f → followersNorm defaultThresholds (some f) = 1) ∧
    (∀ f : ℤ, 1000 ≤ f → f < 10000 →
      followersNorm defaultThresholds (some f) = 1 / 2 + ((f : ℚ) - 1000) / 18000) ∧
    (∀ f : ℤ, 100 ≤ f → f < 1000 →
      followersNorm defaultThresholds (some f) = (3 / 10) * ((f : ℚ) / 100)) ∧
    (∀ (th : Thresholds) (f : ℤ) (t d : Option ℤ) (handle : String),
      f < th.min_followers →
      qualityPassedMetrics th (some f) t d handle = false) := by
  refine ⟨fun th f t d => ⟨le_max_left 0 _, ?_⟩, fun d => ?_, fun t ht => ?_,
    fun f hf => ?_, fun f hf1 hf2 => ?_, fun f hf1 hf2 => ?_,
    fun th f t d handle hf => ?_⟩
  · exact max_le (by norm_num) (min_le_left 1 _)
  · unfold recencyNorm
    rcases d with _ | d
    · norm_num
    · dsimp only
      split_ifs <;> norm_num
  · unfold postcountNorm defaultThresholds
    dsimp only
    split_ifs with h1 h2
    · norm_num
    · constructor
      · have : (50 : ℚ) ≤ (t : ℚ) := by exact_mod_cast h2
        nlinarith
      · have : (t : ℚ) < 1000 := by exact_mod_cast not_le.mp h1
        nlinarith
    · have h0 : (0 : ℚ) ≤ (t : ℚ) := by exact_mod_cast ht
      have : (t : ℚ) < 50 := by exact_mod_cast not_le.mp h2
      constructor
      · nlinarith
      · nlinarith
  · unfold followersNorm defaultThresholds
    simp [hf]
  · unfold followersNorm defaultThresholds
    dsimp only
    rw [if_neg (by omega), if_pos hf1]
    ring
  · unfold followersNorm defaultThresholds
    dsimp only
    rw [if_neg (by omega), if_neg (by omega), if_pos (by exact_mod_cast hf1)]
    norm_num
  · unfold qualityPassedMetrics
    simp only [Bool.not_eq_true']
    have : decide (f < th.min_followers) = true := decide_eq_true hf
    simp [this]

/-- Witness for C5: followers_count = 10 with a high-scoring rest of the
profile still fails the default min_followers = 100 gate, and 20000 followers
saturate the follower sub-score. -/
theorem C5_quality_witness :
    qualityPassedMetrics defaultThresholds (some 10) (some 5000) (some 1) "abcdef" = false ∧
    followersNorm defaultThresholds (some 20000) = 1 :=
  ⟨C5_quality_amended.2.2.2.2.2.2 defaultThresholds 10 (some 5000) (some 1) "abcdef"
      (by norm_num [defaultThresholds]),
   C5_quality_amended.2.2.2.1 20000 (by norm_num)⟩

/-! ## DiversitySampler.stratified_sampling (diversity_sampling.py:300-349)

random.sample is modelled by a caller-supplied pick function; a valid pick
returns exactly the requested number of elements (when available) drawn
without replacement from its input, in any order. -/

/-- Composite stratum key (diversity_sampling.py:325-336). -/
def stratumKey (attrs : List String) (a : Account) : String :=
  let parts :=
    (if "followers" ∈ attrs then [followerStratum a.followers_count] else []) ++
    (if "region" ∈ attrs then ["region_" ++ a.region] else []) ++
    (if "language" ∈ attrs then ["lang_" ++ a.language] else []) ++
    (if "sentiment" ∈ attrs then ["sentiment_" ++ a.dominant_sentiment] else [])
  String.intercalate "_" parts

/-- First-occurrence key extraction (dict insertion order), seen-set explicit. -/
def firstKeysGo (seen : List String) : List String → List String
  | [] => []
  | k :: rest =>
    if k ∈ seen then firstKeysGo seen rest else k :: firstKeysGo (k :: seen) rest

/-- Distinct keys of a list in first-occurrence order. -/
def firstKeys (l : List String) : List String :=
  firstKeysGo [] l

theorem firstKeysGo_mem (l : List String) (seen : List String) (v : String) :
    v ∈ firstKeysGo seen l ↔ (v ∈ l ∧ v ∉ seen) := by
  induction l generalizing seen with
  | nil => simp [firstKeysGo]
  | cons k rest ih =>
    simp only [firstKeysGo]
    by_cases hk : k ∈ seen
    · rw [if_pos hk, ih seen]
      constructor
      · rintro ⟨h1, h2⟩
        exact ⟨List.mem_cons_of_mem _ h1, h2⟩
      · rintro ⟨h1, h2⟩
        rcases List.mem_cons.mp h1 with h | h
        · subst h
          exact absurd hk h2
        · exact ⟨h, h2⟩
    · rw [if_neg hk]
      simp only [List.mem_cons, ih (k :: seen), List.mem_cons]
      constructor
      · rintro (h | ⟨h1, h2⟩)
        · subst h
          exact ⟨Or.inl rfl, hk⟩
        · push_neg at h2
          exact ⟨Or.inr h1, h2.2⟩
      · rintro ⟨h1 | h1, h2⟩
        · exact Or.inl h1
        · by_cases hv : v = k
          · exact Or.inl hv
          · exact Or.inr ⟨h1, fun hmem => hmem.elim hv h2⟩

theorem firstKeysGo_nodup (l : List String) (seen : List String) :
    (firstKeysGo seen l).Nodup := by
  induction l generalizing seen with
  | nil => simp [firstKeysGo]
  | cons k rest ih =>
    simp only [firstKeysGo]
    by_cases hk : k ∈ seen
    · rw [if_pos hk]
      exact ih seen
    · rw [if_neg hk]
      refine List.nodup_cons.mpr ⟨fun hmem => ?_, ih (k :: seen)⟩
      have := (firstKeysGo_mem rest (k :: seen) k).mp hmem
      exact this.2 (List.mem_cons_self k seen)

theorem firstKeys_mem (l : List String) (v : String) : v ∈ firstKeys l ↔ v ∈ l := by
  rw [firstKeys, firstKeysGo_mem]
  simp

theorem firstKeys_nodup (l : List String) : (firstKeys l).Nodup :=
  firstKeysGo_nodup l []

/-- Stratum keys in first-appearance order (defaultdict insertion order). -/
def strataKeys (attrs : List String) (accounts : List Account) : List String :=
  firstKeys (accounts.map (stratumKey attrs))

/-- The accounts of one stratum. -/
def stratumOf (attrs : List String) (accounts : List Account) (k : String) : List Account :=
  accounts.filter (fun a => stratumKey attrs a == k)

/-- Per-stratum allocation (diversity_sampling.py:343):
max(1, int(num_samples * stratum_size / total_accounts)); the int() of the
nonnegative float ratio is integer floor division. -/
def allocSlots (numSamples stratumSize total : ℕ) : ℕ :=
  max 1 (numSamples * stratumSize / total)

/-- The concatenated per-stratum samples (diversity_sampling.py:341-344). -/
def stratifiedUnion (pick : List Account → ℕ → List Account)
    (accounts : List Account) (numSamples : ℕ) (attrs : List String) : List Account :=
  (strataKeys attrs accounts).flatMap (fun k =>
    pick (stratumOf attrs accounts k)
      (min (allocSlots numSamples (stratumOf attrs accounts k).length accounts.length)
        (stratumOf attrs accounts k).length))

/-- stratified_sampling: empty guard, per-stratum sampling, then a uniform
down-sample of the union when it exceeds the target
(diversity_sampling.py:320-349). -/
def stratifiedSampling (pick : List Account → ℕ → List Account)
    (accounts : List Account) (numSamples : ℕ) (attrs : List String) : List Account :=
  if accounts.isEmpty then []
  else if numSamples < (stratifiedUnion pick accounts numSamples attrs).length then
    pick (stratifiedUnion pick accounts numSamples attrs) numSamples
  else stratifiedUnion pick accounts numSamples attrs

/-- Contract of random.sample xs n (requires n <= len(xs)): n elements, drawn
without replacement from xs, in any order. -/
def PickValid (pick : List Account → ℕ → List Account) : Prop :=
  (∀ (xs : List Account) (n : ℕ), n ≤ xs.length → (pick xs n).length = n) ∧
  (∀ (xs : List Account) (n : ℕ), List.Subperm (pick xs n) xs)

/-- Deterministic pick instance (take the first n) satisfying PickValid. -/
def pickTake (xs : List Account) (n : ℕ) : List Account :=
  xs.take n

theorem pickTake_valid : PickValid pickTake :=
  ⟨fun xs n h => by simp [pickTake, List.length_take, Nat.min_eq_left h],
   fun xs n => (List.take_sublist n xs).subperm⟩

/-! ### Partition lemmas for the stratified union -/

theorem count_flatMap_eq_sum (keys : List String) (g : String → List Account) (a : Account) :
    ((keys.flatMap g).count a) = (keys.map (fun k => (g k).count a)).sum := by
  induction keys with
  | nil => simp
  | cons k ks ih => simp [List.count_append, ih]

theorem count_filter_key (attrs : List String) (l : List Account) (a : Account) (k : String) :
    ((l.filter (fun x => stratumKey attrs x == k)).count a) =
      if stratumKey attrs a = k then l.count a else 0 := by
  by_cases h : stratumKey attrs a = k
  · rw [if_pos h]
    exact List.count_filter (by simp [h])
  · rw [if_neg h]
    refine List.count_eq_zero_of_not_mem fun hmem => ?_
    have := (List.mem_filter.mp hmem).2
    simp at this
    exact h this

theorem sum_map_ite_mem (keys : List String) (v : String) (c : ℕ) (hnd : keys.Nodup) :
    (keys.map (fun k => if v = k then c else 0)).sum = if v ∈ keys then c else 0 := by
  induction keys with
  | nil => simp
  | cons k ks ih =>
    rcases List.nodup_cons.mp hnd with ⟨hk, hks⟩
    by_cases hv : v = k
    · subst hv
      simp [List.map_cons, ih hks, hk]
    · simp [List.map_cons, ih hks, hv, List.mem_cons]

/-- The strata are a partition: concatenating them permutes the pool. -/
theorem strata_partition (attrs : List String) (accounts : List Account) :
    List.Perm ((strataKeys attrs accounts).flatMap (stratumOf attrs accounts)) accounts := by
  rw [List.perm_iff_count]
  intro a
  rw [count_flatMap_eq_sum]
  have hmapeq : ((strataKeys attrs accounts).map
      (fun k => (stratumOf attrs accounts k).count a)) =
      ((strataKeys attrs accounts).map
        (fun k => if stratumKey attrs a = k then accounts.count a else 0)) := by
    refine List.map_congr_left fun k _ => ?_
    exact count_filter_key attrs accounts a k
  have hnd : (strataKeys attrs accounts).Nodup := firstKeys_nodup _
  rw [hmapeq, sum_map_ite_mem _ _ _ hnd]
  by_cases hmem : a ∈ accounts
  · have : stratumKey attrs a ∈ strataKeys attrs accounts := by
      unfold strataKeys
      rw [firstKeys_mem]
      exact List.mem_map_of_mem _ hmem
    rw [if_pos this]
  · have hc : accounts.count a = 0 := List.count_eq_zero_of_not_mem hmem
    rw [hc]
    simp

/-- Elements produced by a valid pick from a stratum carry that stratum key. -/
theorem pick_stratum_key (pick : List Account → ℕ → List Account) (hp : PickValid pick)
    (attrs : List String) (accounts : List Account) (k : String) (n : ℕ) :
    ∀ a ∈ pick (stratumOf attrs accounts k) n, stratumKey attrs a = k := by
  intro a ha
  have hmem : a ∈ stratumOf attrs accounts k := (hp.2 _ n).subset ha
  have := (List.mem_filter.mp hmem).2
  simpa using this

/-- Filtering a stratified flatMap by one key isolates that stratum chunk. -/
theorem filter_flatMap_single (attrs : List String) (ks : List String)
    (F : String → List Account)
    (hF : ∀ k : String, ∀ a ∈ F k, stratumKey attrs a = k)
    (hnd : ks.Nodup) (k : String) :
    (ks.flatMap F).filter (fun a => stratumKey attrs a == k) =
      if k ∈ ks then F k else [] := by
  induction ks with
  | nil => simp
  | cons hd tl ih =>
    rcases List.nodup_cons.mp hnd with ⟨hhd, htl⟩
    rw [List.flatMap_cons, List.filter_append, ih htl]
    by_cases hk : hd = k
    · subst hk
      have h1 : (F hd).filter (fun a => stratumKey attrs a == hd) = F hd :=
        List.filter_eq_self.mpr fun a ha => by simp [hF hd a ha]
      simp [h1, hhd]
    · have h1 : (F hd).filter (fun a => stratumKey attrs a == k) = [] := by
        refine List.filter_eq_nil_iff.mpr fun a ha => ?_
        simp [hF hd a ha, hk]
      have hmc : (k ∈ hd :: tl) ↔ (k ∈ tl) := by
        constructor
        · intro h
          rcases List.mem_cons.mp h with h | h
          · exact absurd h.symm hk
          · exact h
        · exact List.mem_cons_of_mem _
      by_cases hmem : k ∈ tl
      · simp [h1, hmem, hmc.mpr hmem]
      · have : ¬(k ∈ hd :: tl) := fun h => hmem (hmc.mp h)
        simp [h1, hmem, this]

theorem flatMap_perm_of_forall (ks : List String) (f g : String → List Account)
    (h : ∀ k ∈ ks, List.Perm (f k) (g k)) :
    List.Perm (ks.flatMap f) (ks.flatMap g) := by
  induction ks with
  | nil => simp
  | cons k t ih =>
    simp only [List.flatMap_cons]
    exact List.Perm.append (h k (by simp)) (ih fun x hx => h x (by simp [hx]))

/-- C6 (amended): stratified sampling allocates each stratum
max(1, floor(totalSamples * stratumSize / poolSize)) slots — integer truncation
of the proportional share, not round-to-nearest — with the minimum of 1 per
non-empty stratum; within a stratum it selects without replacement, so each
stratum contributes at most its population; the union is down-sampled to the
exact target when it exceeds the target; an empty pool yields an empty result
and a target at least the pool size yields the full pool (as a permutation). -/
theorem C6_stratified_amended (pick : List Account → ℕ → List Account)
    (hp : PickValid pick) (accounts : List Account) (numSamples : ℕ)
    (attrs : List String) :
    stratifiedSampling pick [] numSamples attrs = [] ∧
    (accounts.length ≤ numSamples →
      List.Perm (stratifiedSampling pick accounts numSamples attrs) accounts) ∧
    (∀ k ∈ strataKeys attrs accounts,
      ((stratifiedUnion pick accounts numSamples attrs).filter
          (fun a => stratumKey attrs a == k)).length =
        min (allocSlots numSamples (stratumOf attrs accounts k).length accounts.length)
          (stratumOf attrs accounts k).length) ∧
    (∀ k : String,
      ((stratifiedSampling pick accounts numSamples attrs).filter
          (fun a => stratumKey attrs a == k)).length ≤
        (stratumOf attrs accounts k).length) ∧
    (numSamples < (stratifiedUnion pick accounts numSamples attrs).length →
      accounts ≠ [] →
      (stratifiedSampling pick accounts numSamples attrs).length = numSamples) := by
  have hufilter : ∀ k : String,
      (stratifiedUnion pick accounts numSamples attrs).filter
          (fun a => stratumKey attrs a == k) =
        if k ∈ strataKeys attrs accounts then
          pick (stratumOf attrs accounts k)
            (min (allocSlots numSamples (stratumOf attrs accounts k).length accounts.length)
              (stratumOf attrs accounts k).length)
        else [] := by
    intro k
    exact filter_flatMap_single attrs (strataKeys attrs accounts) _
      (fun k0 a ha => pick_stratum_key pick hp attrs accounts k0 _ a ha)
      (firstKeys_nodup _) k
  refine ⟨by simp [stratifiedSampling], fun hle => ?_, fun k hk => ?_, fun k => ?_, fun hlt hne => ?_⟩
  · -- target at least the pool size: the result is a permutation of the pool
    by_cases hemp : accounts = []
    · subst hemp
      simp [stratifiedSampling]
    · have htot : 0 < accounts.length := List.length_pos.mpr hemp
      have hperm : List.Perm (stratifiedUnion pick accounts numSamples attrs) accounts := by
        refine List.Perm.trans (flatMap_perm_of_forall _ _ (stratumOf attrs accounts)
          fun k _ => ?_) (strata_partition attrs accounts)
        set g := stratumOf attrs accounts k with hg
        have hga : allocSlots numSamples g.length accounts.length ≤ g.length →
            g.length ≤ allocSlots numSamples g.length accounts.length := fun _ => by
          have h1 : accounts.length * g.length / accounts.length ≤
              numSamples * g.length / accounts.length :=
            Nat.div_le_div_right (Nat.mul_le_mul_right _ hle)
          have h2 : accounts.length * g.length / accounts.length = g.length :=
            Nat.mul_div_cancel_left _ htot
          calc g.length = accounts.length * g.length / accounts.length := h2.symm
            _ ≤ numSamples * g.length / accounts.length := h1
            _ ≤ allocSlots numSamples g.length accounts.length := le_max_right _ _
      -- min collapses to the full stratum size
        have hmin : min (allocSlots numSamples g.length accounts.length) g.length = g.length := by
          rcases le_total (allocSlots numSamples g.length accounts.length) g.length with h | h
          · exact le_antisymm (min_le_right _ _) (le_min (hga h) le_rfl)
          · exact le_antisymm (min_le_right _ _) (le_min h le_rfl)
        rw [hmin]
        have hsub := hp.2 g g.length
        have hlen : (pick g g.length).length = g.length := hp.1 g g.length le_rfl
        exact hsub.perm_of_length_le (le_of_eq hlen.symm)
      unfold stratifiedSampling
      rw [if_neg (by simpa [List.isEmpty_iff] using hemp)]
      have hulen : (stratifiedUnion pick accounts numSamples attrs).length =
          accounts.length := hperm.length_eq
      rw [if_neg (by omega)]
      exact hperm
  · -- union per-stratum contribution equals min(allocation, population)
    rw [hufilter k, if_pos hk]
    exact hp.1 _ _ (min_le_right _ _)
  · -- every stratum contributes at most its population
    by_cases hemp : accounts = []
    · subst hemp
      simp [stratifiedSampling, stratumOf]
    · have hres : List.Subperm (stratifiedSampling pick accounts numSamples attrs)
          (stratifiedUnion pick accounts numSamples attrs) := by
        unfold stratifiedSampling
        rw [if_neg (by simpa [List.isEmpty_iff] using hemp)]
        split_ifs with h
        · exact hp.2 _ _
        · exact List.Subperm.refl _
      have h1 := (hres.filter (fun a => stratumKey attrs a == k)).length_le
      refine le_trans h1 ?_
      rw [hufilter k]
      split_ifs with h
      · calc (pick (stratumOf attrs accounts k) _).length
            = min (allocSlots numSamples (stratumOf attrs accounts k).length accounts.length)
              (stratumOf attrs accounts k).length := hp.1 _ _ (min_le_right _ _)
          _ ≤ (stratumOf attrs accounts k).length := min_le_right _ _
      · simp
  · -- union exceeding the target is down-sampled to the exact target
    unfold stratifiedSampling
    rw [if_neg (by simpa [List.isEmpty_iff] using hne), if_pos hlt]
    exact hp.1 _ _ (le_of_lt hlt)

/-- Pool with a 3-to-1 stratum split used to separate floor from round. -/
def stratPool4 : List Account :=
  [{ handle := "s1", followers_count := 500 },
   { handle := "s2", followers_count := 500 },
   { handle := "s3", followers_count := 500 },
   { handle := "m1", followers_count := 5000 }]

/-- The allocation the claim asserts: round(totalSamples * stratumSize /
poolSize) with a minimum of 1 (spec wording, not the code). -/
def specSlotsRound (numSamples stratumSize poolSize : ℕ) : ℕ :=
  max 1 (round ((numSamples * stratumSize : ℚ) / poolSize)).toNat

/-- C6 counterexample: with strata sizes 3 ("small") and 1 ("medium") in a pool
of 4 and target 2, the code allocates the "small" stratum
max(1, int(2 * 3 / 4)) = 1 slot, while the claimed formula gives
round(1.5) = 2; the sampled output indeed contains exactly one "small"
account. -/
theorem C6_stratified_counterexample :
    ((stratifiedSampling pickTake stratPool4 2 ["followers"]).filter
        (fun a => stratumKey ["followers"] a == "small")).length = 1 ∧
    specSlotsRound 2 3 4 = 2 ∧
    ¬((stratifiedSampling pickTake stratPool4 2 ["followers"]).filter
        (fun a => stratumKey ["followers"] a == "small")).length =
      specSlotsRound 2 3 4 := by
  have h1 : ((stratifiedSampling pickTake stratPool4 2 ["followers"]).filter
      (fun a => stratumKey ["followers"] a == "small")).length = 1 := by decide
  have h2 : specSlotsRound 2 3 4 = 2 := by
    have h : round ((2 * 3 : ℚ) / 4) = 2 := by norm_num [round_eq]
    rw [specSlotsRound]
    norm_num at h ⊢
    rw [h]
    decide
  exact ⟨h1, h2, by rw [h1, h2]; omega⟩

/-- Witness for C6: the amended theorem applied to the concrete pool with the
take-first pick. -/
theorem C6_stratified_witness :
    List.Perm (stratifiedSampling pickTake stratPool4 5 ["followers"]) stratPool4 ∧
    ((stratifiedSampling pickTake stratPool4 2 ["followers"]).filter
        (fun a => stratumKey ["followers"] a == "medium")).length ≤
      (stratumOf ["followers"] stratPool4 "medium").length :=
  ⟨(C6_stratified_amended pickTake pickTake_valid stratPool4 5 ["followers"]).2.1 (by decide),
   (C6_stratified_amended pickTake pickTake_valid stratPool4 2 ["followers"]).2.2.2.1 "medium"⟩

/-! ## DiversitySampler.quota_sampling (diversity_sampling.py:351-412)

random.shuffle is modelled by taking the already-shuffled pool as the input
list.  The quotas dict may carry a mapping for each of the three attributes the
loop inspects (followers bucket, region, sentiment); a dict missing an
attribute leaves that attribute unconstrained, and a bucket missing from a
mapping has quota.get(bucket, 0) = 0. -/

/-- The three per-attribute quota mappings the loop reads. -/
structure Quotas where
  followers : Option (List (String × ℕ)) := none
  region : Option (List (String × ℕ)) := none
  sentiment : Option (List (String × ℕ)) := none

/-- Python quota.get(bucket, 0) over an association list. -/
def quotaGet (m : List (String × ℕ)) (k : String) : ℕ :=
  match m.find? (fun p => p.1 == k) with
  | some p => p.2
  | none => 0

/-- followers bucket of a candidate (diversity_sampling.py:384). -/
def accFollowerBucket (a : Account) : String :=
  followerStratum a.followers_count

/-- region of a candidate, default "unknown" (diversity_sampling.py:389). -/
def accRegion (a : Account) : String :=
  a.region

/-- dominant sentiment, default "neutral" (diversity_sampling.py:394). -/
def accSentiment (a : Account) : String :=
  a.dominant_sentiment

/-- Running per-attribute admission counters (quota_counts). -/
structure QuotaCounts where
  followers : String → ℕ
  region : String → ℕ
  sentiment : String → ℕ

/-- Counters start at zero (defaultdict(int)). -/
def initCounts : QuotaCounts :=
  { followers := fun _ => 0, region := fun _ => 0, sentiment := fun _ => 0 }

/-- Admission test (diversity_sampling.py:380-397): a candidate fits iff no
configured attribute has already reached its bucket quota. -/
def fitsQuota (q : Quotas) (c : QuotaCounts) (a : Account) : Bool :=
  (match q.followers with
   | none => true
   | some m => decide (c.followers (accFollowerBucket a) < quotaGet m (accFollowerBucket a))) &&
  (match q.region with
   | none => true
   | some m => decide (c.region (accRegion a) < quotaGet m (accRegion a))) &&
  (match q.sentiment with
   | none => true
   | some m => decide (c.sentiment (accSentiment a) < quotaGet m (accSentiment a)))

/-- Counter update after admission (diversity_sampling.py:401-410): only the
attributes present in the quotas dict are counted. -/
def bumpCounts (q : Quotas) (c : QuotaCounts) (a : Account) : QuotaCounts :=
  { followers := match q.followers with
      | none => c.followers
      | some _ => fun b => if b = accFollowerBucket a then c.followers b + 1 else c.followers b,
    region := match q.region with
      | none => c.region
      | some _ => fun b => if b = accRegion a then c.region b + 1 else c.region b,
    sentiment := match q.sentiment with
      | none => c.sentiment
      | some _ => fun b => if b = accSentiment a then c.sentiment b + 1 else c.sentiment b }

/-- The main loop of quota_sampling over the shuffled pool. -/
def quotaGo (q : Quotas) (maxTotal : ℕ) :
    List Account → List Account → QuotaCounts → List Account
  | [], sampled, _ => sampled
  | a :: rest, sampled, c =>
    if maxTotal ≤ sampled.length then sampled
    else if fitsQuota q c a then quotaGo q maxTotal rest (sampled ++ [a]) (bumpCounts q c a)
    else quotaGo q maxTotal rest sampled c

/-- quota_sampling on an already-shuffled pool. -/
def quotaSampling (q : Quotas) (shuffled : List Account) (maxTotal : ℕ) : List Account :=
  quotaGo q maxTotal shuffled [] initCounts

/-! ### Quota loop invariants -/

theorem quotaGo_length (q : Quotas) (maxTotal : ℕ) (l : List Account) :
    ∀ (sampled : List Account) (c : QuotaCounts), sampled.length ≤ maxTotal →
      (quotaGo q maxTotal l sampled c).length ≤ maxTotal := by
  induction l with
  | nil => intro sampled c h; exact h
  | cons a rest ih =>
    intro sampled c h
    simp only [quotaGo]
    split_ifs with h1 h2
    · exact h
    · exact ih _ _ (by simp; omega)
    · exact ih _ _ h

theorem quotaGo_sublist (q : Quotas) (maxTotal : ℕ) (l : List Account) :
    ∀ (sampled : List Account) (c : QuotaCounts),
      ∃ t, quotaGo q maxTotal l sampled c = sampled ++ t ∧ List.Sublist t l := by
  induction l with
  | nil =>
    intro sampled c
    exact ⟨[], by simp [quotaGo]⟩
  | cons a rest ih =>
    intro sampled c
    simp only [quotaGo]
    split_ifs with h1 h2
    · exact ⟨[], by simp⟩
    · obtain ⟨t, ht, hsub⟩ := ih (sampled ++ [a]) (bumpCounts q c a)
      exact ⟨a :: t, by simp [ht], List.Sublist.cons₂ a hsub⟩
    · obtain ⟨t, ht, hsub⟩ := ih sampled c
      exact ⟨t, ht, List.Sublist.cons a hsub⟩

/-- The per-attribute invariant: each tracked counter equals the number of
already-admitted candidates in that bucket and respects the quota. -/
def CountsTrack (proj : Account → String) (cnt : String → ℕ)
    (m : List (String × ℕ)) (sampled : List Account) : Prop :=
  ∀ b, cnt b = (sampled.filter (fun a => proj a == b)).length ∧ cnt b ≤ quotaGet m b

theorem countsTrack_init (proj : Account → String) (m : List (String × ℕ)) :
    CountsTrack proj (fun _ => 0) m [] :=
  fun b => ⟨by simp, Nat.zero_le _⟩

theorem countsTrack_bump (proj : Account → String) (cnt : String → ℕ)
    (m : List (String × ℕ)) (sampled : List Account) (a : Account)
    (h : CountsTrack proj cnt m sampled)
    (hlt : cnt (proj a) < quotaGet m (proj a)) :
    CountsTrack proj (fun b => if b = proj a then cnt b + 1 else cnt b) m
      (sampled ++ [a]) := by
  intro b
  by_cases hb : b = proj a
  · subst hb
    dsimp only
    rw [if_pos rfl]
    refine ⟨?_, by have h2 := hlt; omega⟩
    rw [(h (proj a)).1, List.filter_append]
    simp
  · dsimp only
    rw [if_neg hb]
    refine ⟨?_, (h b).2⟩
    rw [(h b).1, List.filter_append]
    have hf : ((proj a == b)) = false := by
      simp
      exact fun hc => hb hc.symm
    simp [hf]

/-- Bucket bound carried through the loop, for one tracked attribute. -/
theorem quotaGo_bucket (q : Quotas) (maxTotal : ℕ) (l : List Account)
    (proj : Account → String)
    (getQ : Quotas → Option (List (String × ℕ)))
    (getC : QuotaCounts → String → ℕ)
    (hbump : ∀ (c : QuotaCounts) (a : Account),
      getC (bumpCounts q c a) =
        fun b => if b = proj a then getC c b + 1 else getC c b)
    (hfits : ∀ (c : QuotaCounts) (a : Account) (m : List (String × ℕ)), getQ q = some m →
      fitsQuota q c a = true → getC c (proj a) < quotaGet m (proj a)) :
    ∀ (sampled : List Account) (c : QuotaCounts) (m : List (String × ℕ)),
      getQ q = some m → CountsTrack proj (getC c) m sampled →
      ∀ b, ((quotaGo q maxTotal l sampled c).filter (fun a => proj a == b)).length ≤
        quotaGet m b := by
  induction l with
  | nil =>
    intro sampled c m hm htrack b
    have := (htrack b).1
    have h2 := (htrack b).2
    simp only [quotaGo]
    omega
  | cons a rest ih =>
    intro sampled c m hm htrack b
    simp only [quotaGo]
    split_ifs with h1 h2
    · have := (htrack b).1
      have h2b := (htrack b).2
      omega
    · refine ih _ _ m hm ?_ b
      have hlt := hfits c a m hm h2
      have := countsTrack_bump proj (getC c) m sampled a htrack hlt
      rw [hbump c a]
      exact this
    · exact ih _ _ m hm htrack b

/-- C9: quota sampling returns at most max_total candidates, drawn without
repetition in walk order from the shuffled pool (a sublist), and for each
attribute that has a configured quota mapping, the number of selected
candidates in every bucket never exceeds that bucket quota, a bucket absent
from the mapping acting as quota 0. -/
theorem C9_quota_invariants (q : Quotas) (shuffled : List Account) (maxTotal : ℕ) :
    (quotaSampling q shuffled maxTotal).length ≤ maxTotal ∧
    List.Sublist (quotaSampling q shuffled maxTotal) shuffled ∧
    (∀ m, q.followers = some m → ∀ b,
      ((quotaSampling q shuffled maxTotal).filter
          (fun a => accFollowerBucket a == b)).length ≤ quotaGet m b) ∧
    (∀ m, q.region = some m → ∀ b,
      ((quotaSampling q shuffled maxTotal).filter
          (fun a => accRegion a == b)).length ≤ quotaGet m b) ∧
    (∀ m, q.sentiment = some m → ∀ b,
      ((quotaSampling q shuffled maxTotal).filter
          (fun a => accSentiment a == b)).length ≤ quotaGet m b) := by
  refine ⟨quotaGo_length q maxTotal shuffled [] initCounts (Nat.zero_le _), ?_, ?_, ?_, ?_⟩
  · obtain ⟨t, ht, hsub⟩ := quotaGo_sublist q maxTotal shuffled [] initCounts
    rw [quotaSampling, ht]
    simpa using hsub
  · intro m hm b
    refine quotaGo_bucket q maxTotal shuffled accFollowerBucket (fun q => q.followers)
      (fun c => c.followers) (fun c a => by simp [bumpCounts, hm]) ?_ [] initCounts m hm
      (countsTrack_init accFollowerBucket m) b
    intro c a m2 hm2 hfit
    have hm2b : q.followers = some m2 := hm2
    have hand := (Bool.and_eq_true _ _ |>.mp (Bool.and_eq_true _ _ |>.mp hfit).1).1
    rw [hm2b] at hand
    simpa using hand
  · intro m hm b
    refine quotaGo_bucket q maxTotal shuffled accRegion (fun q => q.region)
      (fun c => c.region) (fun c a => by simp [bumpCounts, hm]) ?_ [] initCounts m hm
      (countsTrack_init accRegion m) b
    intro c a m2 hm2 hfit
    have hm2b : q.region = some m2 := hm2
    have hand := (Bool.and_eq_true _ _ |>.mp (Bool.and_eq_true _ _ |>.mp hfit).1).2
    rw [hm2b] at hand
    simpa using hand
  · intro m hm b
    refine quotaGo_bucket q maxTotal shuffled accSentiment (fun q => q.sentiment)
      (fun c => c.sentiment) (fun c a => by simp [bumpCounts, hm]) ?_ [] initCounts m hm
      (countsTrack_init accSentiment m) b
    intro c a m2 hm2 hfit
    have hm2b : q.sentiment = some m2 := hm2
    have hand := (Bool.and_eq_true _ _ |>.mp hfit).2
    rw [hm2b] at hand
    simpa using hand

/-- Witness for C9: concrete quotas over the four-account pool; the "small"
bucket respects its quota of 1 and the unlisted "medium" bucket gets quota 0. -/
theorem C9_quota_witness :
    ((quotaSampling { followers := some [("small", 1)] } stratPool4 3).filter
        (fun a => accFollowerBucket a == "small")).length ≤ 1 ∧
    ((quotaSampling { followers := some [("small", 1)] } stratPool4 3).filter
        (fun a => accFollowerBucket a == "medium")).length ≤ 0 :=
  ⟨by
    have h := (C9_quota_invariants { followers := some [("small", 1)] } stratPool4 3).2.2.1
      [("small", 1)] rfl "small"
    simpa [quotaGet] using h,
   by
    have h := (C9_quota_invariants { followers := some [("small", 1)] } stratPool4 3).2.2.1
      [("small", 1)] rfl "medium"
    simpa [quotaGet] using h⟩

/-! ## DiversitySampler._calculate_entropy (diversity_sampling.py:490-506)

math.log2 over floats is modelled by Real.logb 2; Counter(values) is the
finset of distinct values with their list counts (every count positive). -/

/-- The accumulated Shannon entropy: sum over distinct values of
-(p * log2 p) with p = count / total. -/
noncomputable def rawEntropy (values : List String) : ℝ :=
  ∑ v ∈ values.toFinset,
    -(((values.count v : ℝ) / (values.length : ℝ)) *
      Real.logb 2 ((values.count v : ℝ) / (values.length : ℝ)))

/-- max_entropy = log2(distinct count) if more than one distinct value,
else 1.0. -/
noncomputable def maxEntropy (values : List String) : ℝ :=
  if 1 < values.toFinset.card then Real.logb 2 (values.toFinset.card : ℝ) else 1

/-- _calculate_entropy: empty guard, then entropy / max_entropy when the
normaliser is positive, else 0. -/
noncomputable def calcEntropy (values : List String) : ℝ :=
  if values.isEmpty then 0
  else if 0 < maxEntropy values then rawEntropy values / maxEntropy values else 0

/-! ### Entropy lemmas -/

theorem sum_count_toFinset (values : List String) :
    ∑ v ∈ values.toFinset, values.count v = values.length := by
  simp

theorem gibbs_sum_le (S : Finset String) (p : String → ℝ)
    (hpos : ∀ v ∈ S, 0 < p v) (hsum : ∑ v ∈ S, p v = 1) :
    ∑ v ∈ S, -(p v * Real.log (p v)) ≤ Real.log (S.card : ℝ) := by
  have hSne : S.Nonempty := by
    by_contra h
    rw [Finset.not_nonempty_iff_eq_empty] at h
    subst h
    simp at hsum
  have hk : (0 : ℝ) < (S.card : ℝ) := by
    exact_mod_cast Finset.card_pos.mpr hSne
  have key : ∀ v ∈ S, -(p v * Real.log (p v)) ≤
      1 / (S.card : ℝ) - p v + p v * Real.log (S.card : ℝ) := by
    intro v hv
    have hp := hpos v hv
    have hx : (0 : ℝ) < 1 / ((S.card : ℝ) * p v) := by positivity
    have hlog := Real.log_le_sub_one_of_pos hx
    have hlogeq : Real.log (1 / ((S.card : ℝ) * p v)) =
        -(Real.log (S.card : ℝ) + Real.log (p v)) := by
      rw [one_div, Real.log_inv, Real.log_mul (ne_of_gt hk) (ne_of_gt hp)]
    rw [hlogeq] at hlog
    have hmul := mul_le_mul_of_nonneg_left hlog (le_of_lt hp)
    have hrhs : p v * (1 / ((S.card : ℝ) * p v) - 1) = 1 / (S.card : ℝ) - p v := by
      field_simp
      ring
    rw [hrhs] at hmul
    nlinarith [hmul]
  have hsumle := Finset.sum_le_sum key
  have hexp : ∑ v ∈ S, (1 / (S.card : ℝ) - p v + p v * Real.log (S.card : ℝ)) =
      Real.log (S.card : ℝ) := by
    rw [Finset.sum_add_distrib, Finset.sum_sub_distrib, Finset.sum_const,
      ← Finset.sum_mul, hsum]
    simp only [nsmul_eq_mul, one_mul]
    field_simp
  rw [hexp] at hsumle
  exact hsumle

theorem rawEntropy_eq_div_log2 (values : List String) :
    rawEntropy values = (∑ v ∈ values.toFinset,
      -(((values.count v : ℝ) / (values.length : ℝ)) *
        Real.log ((values.count v : ℝ) / (values.length : ℝ)))) / Real.log 2 := by
  rw [rawEntropy, Finset.sum_div]
  refine Finset.sum_congr rfl fun v _ => ?_
  rw [Real.logb]
  ring

theorem prob_sum_one (values : List String) (hne : values ≠ []) :
    ∑ v ∈ values.toFinset, ((values.count v : ℝ) / (values.length : ℝ)) = 1 := by
  have hlen : (0 : ℝ) < (values.length : ℝ) := by
    exact_mod_cast List.length_pos.mpr hne
  rw [← Finset.sum_div]
  rw [div_eq_one_iff_eq (ne_of_gt hlen)]
  exact_mod_cast sum_count_toFinset values

theorem prob_pos (values : List String) (hne : values ≠ []) (v : String)
    (hv : v ∈ values.toFinset) :
    (0 : ℝ) < (values.count v : ℝ) / (values.length : ℝ) := by
  have hlen : (0 : ℝ) < (values.length : ℝ) := by
    exact_mod_cast List.length_pos.mpr hne
  have hc : 0 < values.count v := List.count_pos_iff.mpr (List.mem_toFinset.mp hv)
  have : (0 : ℝ) < (values.count v : ℝ) := by exact_mod_cast hc
  positivity

theorem prob_le_one (values : List String) (v : String) :
    (values.count v : ℝ) / (values.length : ℝ) ≤ 1 := by
  rcases Nat.eq_zero_or_pos values.length with h | h
  · simp [h]
  · have hlen : (0 : ℝ) < (values.length : ℝ) := by exact_mod_cast h
    rw [div_le_one hlen]
    exact_mod_cast List.count_le_length ..

theorem rawEntropy_nonneg (values : List String) (hne : values ≠ []) :
    0 ≤ rawEntropy values := by
  refine Finset.sum_nonneg fun v hv => ?_
  have hp := prob_pos values hne v hv
  have hp1 := prob_le_one values v
  have hlog : Real.logb 2 ((values.count v : ℝ) / (values.length : ℝ)) ≤ 0 :=
    Real.logb_nonpos one_lt_two (le_of_lt hp) hp1
  nlinarith [hlog, hp]

theorem rawEntropy_single (values : List String)
    (hcard : values.toFinset.card = 1) :
    rawEntropy values = 0 := by
  obtain ⟨v0, hv0⟩ := Finset.card_eq_one.mp hcard
  have hne : values ≠ [] := by
    intro h
    subst h
    simp at hcard
  have hcount : values.count v0 = values.length := by
    have := sum_count_toFinset values
    rw [hv0, Finset.sum_singleton] at this
    exact this
  rw [rawEntropy, hv0, Finset.sum_singleton, hcount]
  have hlen : ((values.length : ℝ)) ≠ 0 := by
    have := List.length_pos.mpr hne
    positivity
  rw [div_self hlen]
  simp

theorem rawEntropy_le_log2_card (values : List String) (hne : values ≠ []) :
    rawEntropy values ≤ Real.logb 2 (values.toFinset.card : ℝ) := by
  rw [rawEntropy_eq_div_log2, Real.logb]
  have hlog2 : (0 : ℝ) < Real.log 2 := Real.log_pos one_lt_two
  exact (div_le_div_iff_of_pos_right hlog2).mpr
    (gibbs_sum_le values.toFinset _ (prob_pos values hne) (prob_sum_one values hne))

/-- C8: the normalized entropy of any categorical value list lies in [0, 1];
it is 0 for the empty list and for any single-valued list, and 1 for any
distribution uniform over more than one distinct value. -/
theorem C8_entropy_bounds :
    (∀ values : List String, 0 ≤ calcEntropy values ∧ calcEntropy values ≤ 1) ∧
    calcEntropy [] = 0 ∧
    (∀ values : List String, values.toFinset.card = 1 → calcEntropy values = 0) ∧
    (∀ (values : List String) (m : ℕ), 1 < values.toFinset.card →
      (∀ v ∈ values.toFinset, values.count v = m) → calcEntropy values = 1) := by
  have hzero : calcEntropy [] = 0 := by simp [calcEntropy]
  have hsingle : ∀ values : List String, values.toFinset.card = 1 →
      calcEntropy values = 0 := by
    intro values hcard
    have hne : values ≠ [] := by
      intro h
      subst h
      simp at hcard
    rw [calcEntropy, if_neg (by simpa [List.isEmpty_iff] using hne)]
    have hmax : maxEntropy values = 1 := by
      rw [maxEntropy, if_neg (by omega)]
    rw [hmax, if_pos one_pos, rawEntropy_single values hcard]
    simp
  refine ⟨fun values => ?_, hzero, hsingle, fun values m hcard huni => ?_⟩
  · by_cases hne : values = []
    · subst hne
      rw [hzero]
      norm_num
    · rcases Nat.lt_or_ge 1 values.toFinset.card with hk | hk
      · -- at least two distinct values
        have hkpos : (0 : ℝ) < Real.logb 2 (values.toFinset.card : ℝ) :=
          Real.logb_pos one_lt_two (by exact_mod_cast hk)
        rw [calcEntropy, if_neg (by simpa [List.isEmpty_iff] using hne)]
        have hmax : maxEntropy values = Real.logb 2 (values.toFinset.card : ℝ) := by
          rw [maxEntropy, if_pos hk]
        rw [hmax, if_pos hkpos]
        constructor
        · exact div_nonneg (rawEntropy_nonneg values hne) (le_of_lt hkpos)
        · rw [div_le_one hkpos]
          exact rawEntropy_le_log2_card values hne
      · -- a single distinct value
        have hpos : 0 < values.toFinset.card := by
          have : values.toFinset.Nonempty := by
            obtain ⟨a, ha⟩ := List.exists_mem_of_ne_nil values hne
            exact ⟨a, List.mem_toFinset.mpr ha⟩
          exact Finset.card_pos.mpr this
        have hcard : values.toFinset.card = 1 := by omega
        rw [hsingle values hcard]
        norm_num
  · -- uniform over more than one distinct value
    have hne : values ≠ [] := by
      intro h
      subst h
      simp at hcard
    have hm : 0 < m := by
      have hnonempty : values.toFinset.Nonempty := Finset.card_pos.mp (by omega)
      obtain ⟨v, hv⟩ := hnonempty
      have := List.count_pos_iff.mpr (List.mem_toFinset.mp hv)
      rw [huni v hv] at this
      exact this
    have hlen : values.length = values.toFinset.card * m := by
      have := sum_count_toFinset values
      rw [Finset.sum_congr rfl huni, Finset.sum_const, smul_eq_mul] at this
      omega
    have hkpos : (0 : ℝ) < Real.logb 2 (values.toFinset.card : ℝ) :=
      Real.logb_pos one_lt_two (by exact_mod_cast hcard)
    have hraw : rawEntropy values = Real.logb 2 (values.toFinset.card : ℝ) := by
      rw [rawEntropy]
      have hterm : ∀ v ∈ values.toFinset,
          -(((values.count v : ℝ) / (values.length : ℝ)) *
            Real.logb 2 ((values.count v : ℝ) / (values.length : ℝ))) =
          Real.logb 2 (values.toFinset.card : ℝ) / (values.toFinset.card : ℝ) := by
        intro v hv
        have hkR : (0 : ℝ) < (values.toFinset.card : ℝ) := by
          have : 0 < values.toFinset.card := by omega
          exact_mod_cast this
        have hmR : (0 : ℝ) < (m : ℝ) := by exact_mod_cast hm
        have hp : ((values.count v : ℝ) / (values.length : ℝ)) =
            1 / (values.toFinset.card : ℝ) := by
          rw [huni v hv, hlen]
          push_cast
          field_simp
          ring
        rw [hp]
        rw [one_div, Real.logb_inv]
        field_simp
      rw [Finset.sum_congr rfl hterm, Finset.sum_const, nsmul_eq_mul]
      have hkR : ((values.toFinset.card : ℝ)) ≠ 0 := by
        have : 0 < values.toFinset.card := by omega
        positivity
      field_simp
    rw [calcEntropy, if_neg (by simpa [List.isEmpty_iff] using hne)]
    have hmax : maxEntropy values = Real.logb 2 (values.toFinset.card : ℝ) := by
      rw [maxEntropy, if_pos hcard]
    rw [hmax, if_pos hkpos, hraw, div_self (ne_of_gt hkpos)]

/-- Witness for C8: the bounds theorem at concrete lists; the uniform
two-value list has normalized entropy 1 and the constant list entropy 0. -/
theorem C8_entropy_witness :
    calcEntropy ["ja", "en", "ja", "en"] = 1 ∧
    calcEntropy ["ja", "ja"] = 0 ∧
    0 ≤ calcEntropy ["ja", "en", "ja"] ∧ calcEntropy ["ja", "en", "ja"] ≤ 1 :=
  ⟨C8_entropy_bounds.2.2.2 ["ja", "en", "ja", "en"] 2 (by decide) (by decide),
   C8_entropy_bounds.2.2.1 ["ja", "ja"] (by decide),
   (C8_entropy_bounds.1 ["ja", "en", "ja"]).1,
   (C8_entropy_bounds.1 ["ja", "en", "ja"]).2⟩

/-! ## DiversitySampler.enrich_account_attributes (diversity_sampling.py:443-482)

fetch_user_metrics is modelled by a deterministic oracle handle -> metrics
(none covers both a failed call and a falsy metrics dict); the rate-limit
bookkeeping that gates _can_use_x_api is threaded as an abstract track state
with an abstract availability test and update, because it involves wall-clock
time; TextBlob polarity is a black-box scoring function. -/

/-- The metrics dict returned by fetch_user_metrics; keys not read by
enrichment stay in extra. -/
structure Metrics where
  followers_count : Int := 0
  tweet_count : Int := 0
  last_tweet_at : Option String := none
  account_created_at : Option String := none
  extra : List (String × String) := []
  deriving DecidableEq, Repr

/-- _infer_region (diversity_sampling.py:508-518). -/
def inferRegion (location description : String) : String :=
  let text := strToLower (location ++ " " ++ description)
  if ["japan", "tokyo", "osaka", "日本", "東京"].any (fun k => strContains text k) then "JP"
  else if ["usa", "united states", "america", "new york", "california"].any
      (fun k => strContains text k) then "US"
  else if ["uk", "united kingdom", "london", "england"].any
      (fun k => strContains text k) then "GB"
  else if ["korea", "seoul", "대한민국", "한국"].any (fun k => strContains text k) then "KR"
  else "unknown"

/-- _infer_language (diversity_sampling.py:520-528): Unicode range scan. -/
def inferLanguage (description : String) : String :=
  if description.toList.any (fun c =>
      ('぀' ≤ c ∧ c ≤ 'ゟ') ∨ ('゠' ≤ c ∧ c ≤ 'ヿ')) then "ja"
  else if description.toList.any (fun c => '가' ≤ c ∧ c ≤ '힣') then "ko"
  else if description.toList.any (fun c => '一' ≤ c ∧ c ≤ '鿿') then "zh"
  else "en"

/-- _analyze_sentiment (diversity_sampling.py:530-542), with TextBlob polarity
as a black-box scoring function. -/
def analyzeSentiment (polarity : String → ℚ) (description : String) : String :=
  if description = "" then "neutral"
  else if 1 / 10 < polarity description then "positive"
  else if polarity description < -(1 / 10) then "negative"
  else "neutral"

/-- Metric-field assignment (diversity_sampling.py:459-463); none = no usable
metrics, leaving the account unchanged. -/
def applyMetrics (a : Account) (m : Option Metrics) : Account :=
  match m with
  | none => a
  | some m =>
    { a with followers_count := m.followers_count, tweet_count := m.tweet_count,
             last_tweet_at := m.last_tweet_at,
             account_created_at := m.account_created_at }

/-- Enrichment of one candidate: optional metric fields, then the three
inferred attributes (diversity_sampling.py:452-480). -/
def enrichOne (polarity : String → ℚ) (avail : Bool)
    (fetch : String → Option Metrics) (a : Account) : Account :=
  let withM := if avail then applyMetrics a (fetch (lstripAt a.handle)) else a
  { withM with
    region := inferRegion withM.location withM.description,
    language := inferLanguage withM.description,
    dominant_sentiment := analyzeSentiment polarity withM.description }

/-- enrich_account_attributes, threading the rate-limit track state: Track is
the x_api_rate_limit_track dict, canUse is _can_use_x_api, upd is the update
from the fetched metrics (diversity_sampling.py:443-482). -/
def enrichAccounts {Track : Type} (polarity : String → ℚ) (canUse : Track → Bool)
    (upd : Track → Metrics → Track) (fetch : String → Option Metrics) (t : Track) :
    List Account → List Account × Track
  | [] => ([], t)
  | a :: rest =>
    let avail := canUse t
    let t2 := if avail then
        (match fetch (lstripAt a.handle) with
         | some m => upd t m
         | none => t)
      else t
    let res := enrichAccounts polarity canUse upd fetch t2 rest
    (enrichOne polarity avail fetch a :: res.1, res.2)

/-! ### Enrichment lemmas -/

theorem enrichOne_frame (polarity : String → ℚ) (avail : Bool)
    (fetch : String → Option Metrics) (a : Account) :
    (enrichOne polarity avail fetch a).handle = a.handle ∧
    (enrichOne polarity avail fetch a).location = a.location ∧
    (enrichOne polarity avail fetch a).description = a.description ∧
    (enrichOne polarity avail fetch a).extra = a.extra := by
  unfold enrichOne applyMetrics
  cases avail
  · simp
  · cases fetch (lstripAt a.handle) <;> simp

theorem enrichOne_idem (polarity : String → ℚ) (avail : Bool)
    (fetch : String → Option Metrics) (a : Account) :
    enrichOne polarity avail fetch (enrichOne polarity avail fetch a) =
      enrichOne polarity avail fetch a := by
  obtain ⟨h, loc, desc, fc, tc, lta, aca, reg, lang, sent, ex⟩ := a
  unfold enrichOne applyMetrics
  cases avail
  · simp
  · cases hf : fetch (lstripAt h) <;> simp [hf]

/-- C10: enrichment preserves length and order, changes no pre-existing field
other than the enrichment fields (followers_count, tweet_count, last_tweet_at,
account_created_at, region, language, dominant_sentiment), and with the same
deterministic metrics source re-enriching an already-enriched list reproduces
it exactly (including the rate-limit track state). -/
theorem C10_enrich_additive_idempotent {Track : Type} (polarity : String → ℚ)
    (canUse : Track → Bool) (upd : Track → Metrics → Track)
    (fetch : String → Option Metrics) (t : Track) (accounts : List Account) :
    ((enrichAccounts polarity canUse upd fetch t accounts).1).length = accounts.length ∧
    List.Forall₂ (fun a b =>
      b.handle = a.handle ∧ b.location = a.location ∧
      b.description = a.description ∧ b.extra = a.extra)
      accounts ((enrichAccounts polarity canUse upd fetch t accounts).1) ∧
    enrichAccounts polarity canUse upd fetch t
        ((enrichAccounts polarity canUse upd fetch t accounts).1) =
      enrichAccounts polarity canUse upd fetch t accounts := by
  induction accounts generalizing t with
  | nil => exact ⟨rfl, List.Forall₂.nil, rfl⟩
  | cons a rest ih =>
    obtain ⟨hlen, hframe, hidem⟩ := ih
      (if canUse t then
        (match fetch (lstripAt a.handle) with
         | some m => upd t m
         | none => t)
       else t)
    refine ⟨by simpa [enrichAccounts] using hlen, ?_, ?_⟩
    · exact List.Forall₂.cons
        (by
          obtain ⟨h1, h2, h3, h4⟩ := enrichOne_frame polarity (canUse t) fetch a
          exact ⟨h1, h2, h3, h4⟩) hframe
    · have hhandle : (enrichOne polarity (canUse t) fetch a).handle = a.handle :=
        (enrichOne_frame polarity (canUse t) fetch a).1
      simp only [enrichAccounts, hhandle]
      rw [enrichOne_idem]
      rw [hidem]

/-- Witness-style instance for C10: the theorem applied at a concrete
deterministic source. -/
theorem C10_enrich_witness :
    ((enrichAccounts (fun _ => 0) (fun _ : Unit => true) (fun t _ => t)
        (fun _ => some { followers_count := 1000 }) () dedupPoolNoWs).1).length =
      dedupPoolNoWs.length :=
  (C10_enrich_additive_idempotent (fun _ => 0) (fun _ : Unit => true) (fun t _ => t)
    (fun _ => some { followers_count := 1000 }) () dedupPoolNoWs).1

/-! ## Posts, personas and cache entries (ingest_accounts.py / app.py)

A post record is {id, text, link, date}; a persona dict is abstracted to its
quality_score presence plus an opaque payload, and a falsy persona (None or {})
is the none case.  A cache entry is the dict written by both writers:
{posts, persona, fetched_at, source} (source may be absent in old entries). -/

structure Post where
  id : String := ""
  text : String := ""
  link : String := ""
  date : String := ""
  deriving DecidableEq, Repr

structure Persona where
  hasQualityScore : Bool := false
  fields : List (String × String) := []
  deriving DecidableEq, Repr

structure CacheEntry where
  posts : List Post
  persona : Option Persona
  fetched_at : String := ""
  source : Option String := none
  deriving DecidableEq, Repr

/-- has_generated_posts (app.py:363-368) and the equivalent inline test in
fetch_account_data (ingest_accounts.py:199): the lead post id carries a
synthetic-provenance marker. -/
def hasGeneratedLead (posts : List Post) : Bool :=
  match posts with
  | [] => false
  | p :: _ => strStartsWith p.id "sample_" || strStartsWith p.id "generated_"

/-- Source tagging from the lead post id (ingest_accounts.py:239-244,
app.py:478-484); only evaluated on nonempty post lists. -/
def sourceOfPosts (posts : List Post) : String :=
  match posts with
  | [] => "unknown"
  | p :: _ => if strStartsWith p.id "web_search_" then "web_search" else "twitter"

/-! ## GrokAPI.fetch_posts (grok_api.py:117-287)

Each strategy (X API user tweets, X API search, Grok web search) is an oracle
from the attempt number to an outcome: a post list or a raised error.  Errors
carry the optional status_code attribute and the exception text. -/

structure UpErr where
  statusCode : Option ℕ := none
  msg : String := ""
  deriving DecidableEq, Repr

/-- Retriable keyword list of _should_retry_error (grok_api.py:160-169). -/
def retriableKeywords : List String :=
  ["timeout", "connection", "temporarily", "503", "500", "502", "504", "network"]

/-- _should_retry_error (grok_api.py:153-170): terminal status codes are never
retried; otherwise retry iff the lowered message contains a retriable
keyword. -/
def shouldRetryError (e : UpErr) : Bool :=
  if e.statusCode = some 401 ∨ e.statusCode = some 403 ∨
      e.statusCode = some 404 ∨ e.statusCode = some 429 then false
  else retriableKeywords.any (fun k => strContains (strToLower e.msg) k)

inductive AttemptOut where
  | ok (posts : List Post)
  | err (e : UpErr)
  deriving DecidableEq, Repr

/-- One strategy loop of fetch_posts (two attempts at most): nonempty posts
return, empty posts fall through without retrying, a retriable error retries
exactly once, a terminal error falls through at once.  Returns the successful
posts (if any) and the number of attempts issued. -/
def runStrategy (s : ℕ → AttemptOut) : Option (List Post) × ℕ :=
  match s 0 with
  | .ok posts => if posts.isEmpty then (none, 1) else (some posts, 1)
  | .err e =>
    if shouldRetryError e then
      match s 1 with
      | .ok posts => if posts.isEmpty then (none, 2) else (some posts, 2)
      | .err _ => (none, 2)
    else (none, 1)

/-- fetch_posts (grok_api.py:172-287): strategies 1 and 2 only with an X API
client, web search as strategy 3, empty list when everything fails.  Returns
the posts plus the attempts each strategy issued. -/
def fetchPosts (hasXApi : Bool) (s1 s2 s3 : ℕ → AttemptOut) :
    List Post × (ℕ × ℕ × ℕ) :=
  if hasXApi then
    match runStrategy s1 with
    | (some p, n1) => (p, (n1, 0, 0))
    | (none, n1) =>
      match runStrategy s2 with
      | (some p, n2) => (p, (n1, n2, 0))
      | (none, n2) =>
        match runStrategy s3 with
        | (some p, n3) => (p, (n1, n2, n3))
        | (none, n3) => ([], (n1, n2, n3))
  else
    match runStrategy s3 with
    | (some p, n3) => (p, (0, 0, n3))
    | (none, n3) => ([], (0, 0, n3))

/-- One web-search post (grok_api.py:782-787). -/
def webSearchPost (account : String) (i : ℕ) (text date : String) : Post :=
  { id := "web_search_" ++ account ++ "_" ++ toString i,
    text := text,
    link := "https://x.com/" ++ account ++ "/status/web_search_" ++ toString i,
    date := date }

/-- _fetch_posts_via_web_search result assembly (grok_api.py:777-790): the
parsed (text, date) rows, truncated to the limit, enumerated, empty texts
skipped. -/
def webSearchPosts (account : String) (found : List (String × String))
    (limit : ℕ) : List Post :=
  ((found.take limit).enum).filterMap (fun p =>
    if p.2.1 ≠ "" then some (webSearchPost account p.1 p.2.1 p.2.2) else none)

theorem strStartsWith_append (pre rest : String) :
    strStartsWith (pre ++ rest) pre = true := by
  rw [strStartsWith]
  have h : (pre ++ rest).toList = pre.toList ++ rest.toList := by
    simp
  rw [h]
  exact List.isPrefixOf_iff_prefix.mpr (List.prefix_append _ _)

theorem webSearchPosts_lead (account : String) (found : List (String × String))
    (limit : ℕ) (p : Post) (hp : p ∈ webSearchPosts account found limit) :
    strStartsWith p.id "web_search_" = true := by
  rw [webSearchPosts] at hp
  obtain ⟨x, hx, heq⟩ := List.mem_filterMap.mp hp
  by_cases hne : x.2.1 ≠ ""
  · rw [if_pos hne] at heq
    obtain rfl := Option.some.inj heq
    show strStartsWith ("web_search_" ++ (account ++ "_" ++ toString x.1)) _ = true
    have h2 : "web_search_" ++ account ++ "_" ++ toString x.1 =
        "web_search_" ++ (account ++ "_" ++ toString x.1) := by
      simp [String.append_assoc]
    exact h2 ▸ strStartsWith_append "web_search_" (account ++ "_" ++ toString x.1)
  · rw [if_neg hne] at heq
    exact absurd heq (by simp)

/-! ## fetch_account_data (ingest_accounts.py:169-296)

The CLI fetch for one account: contaminated-cache invalidation, cache hit
short-circuit, upstream fetch (fetch_posts followed by persona generation and
quality scoring) and the cache write.  The upstream is an oracle: an exception
or the fetched post list; persona generation is an oracle from posts to the
optional persona; effects record the cache deletion, whether any upstream
fetch was issued, and the written entry. -/

inductive FetchStatus where
  | success
  | cached
  | failed
  deriving DecidableEq, Repr

structure FetchResultM where
  posts : List Post
  persona : Option Persona
  status : FetchStatus
  source : String
  deriving DecidableEq, Repr

structure CliEffects where
  deletedCache : Bool
  upstreamCalled : Bool
  wrote : Option CacheEntry
  deriving DecidableEq, Repr

/-- quality_score attachment (ingest_accounts.py:261-275, app.py:330-360). -/
def attachQuality (p : Persona) : Persona :=
  { p with hasQualityScore := true }

/-- The fresh-fetch tail of fetch_account_data (ingest_accounts.py:218-296):
exception or empty posts give FAILED/unknown, otherwise the source is tagged
from the lead post id, the persona is generated and scored, and the entry is
written to the cache. -/
def fetchFresh (upstream : Except UpErr (List Post))
    (gen : List Post → Option Persona) (now : String) (deleted : Bool) :
    FetchResultM × CliEffects :=
  match upstream with
  | .error _ =>
    ({ posts := [], persona := none, status := .failed, source := "unknown" },
     { deletedCache := deleted, upstreamCalled := true, wrote := none })
  | .ok posts =>
    if posts.isEmpty then
      ({ posts := [], persona := none, status := .failed, source := "unknown" },
       { deletedCache := deleted, upstreamCalled := true, wrote := none })
    else
      let src := sourceOfPosts posts
      let persona := (gen posts).map attachQuality
      let entry : CacheEntry :=
        { posts := posts, persona := persona, fetched_at := now, source := some src }
      ({ posts := posts, persona := persona, status := .success, source := src },
       { deletedCache := deleted, upstreamCalled := true, wrote := some entry })

/-- fetch_account_data (ingest_accounts.py:169-296). -/
def fetchAccountData (cached : Option CacheEntry) (forceRefresh : Bool)
    (upstream : Except UpErr (List Post)) (gen : List Post → Option Persona)
    (now : String) : FetchResultM × CliEffects :=
  match (if forceRefresh then none else cached) with
  | some c =>
    if hasGeneratedLead c.posts then fetchFresh upstream gen now true
    else
      ({ posts := c.posts, persona := c.persona, status := .cached,
         source := c.source.getD "unknown" },
       { deletedCache := false, upstreamCalled := false, wrote := none })
  | none => fetchFresh upstream gen now false

/-! ## fetch_and_analyze_posts (app.py:371-528)

The UI fetch: session tier first, then file tier, then a fresh fetch; a
contaminated tier is deleted from both tiers before re-fetching; a hit
without a quality score triggers the backfill (which may issue an X API
metrics call) and a write-back. -/

structure UiEffects where
  deletedSession : Bool
  deletedFile : Bool
  upstreamCalled : Bool
  wroteSession : Option CacheEntry
  wroteFile : Option CacheEntry
  deriving DecidableEq, Repr

/-- ensure_quality_score (app.py:325-360): falsy or already-scored personas
are left alone with no call; otherwise check_account_quality runs (an upstream
metrics call when an X API client is configured) and the score is attached. -/
def ensureQualityScore (p : Option Persona) : Option Persona × Bool :=
  match p with
  | none => (none, false)
  | some q => if q.hasQualityScore then (some q, false) else (some (attachQuality q), true)

/-- The fresh-fetch tail of fetch_and_analyze_posts (app.py:441-528),
carrying the deletion flags accumulated by the cache checks. -/
def uiFetchFresh (upstream : Except UpErr (List Post))
    (gen : List Post → Option Persona) (now : String) (delS delF : Bool) :
    (List Post × Option Persona) × UiEffects :=
  match upstream with
  | .error _ =>
    (([], none),
     { deletedSession := delS, deletedFile := delF, upstreamCalled := true,
       wroteSession := none, wroteFile := none })
  | .ok posts =>
    if posts.isEmpty then
      (([], none),
       { deletedSession := delS, deletedFile := delF, upstreamCalled := true,
         wroteSession := none, wroteFile := none })
    else if hasGeneratedLead posts then
      (([], none),
       { deletedSession := delS, deletedFile := true, upstreamCalled := true,
         wroteSession := none, wroteFile := none })
    else
      let src := sourceOfPosts posts
      let persona := (gen posts).map attachQuality
      let entry : CacheEntry :=
        { posts := posts, persona := persona, fetched_at := now, source := some src }
      ((posts, persona),
       { deletedSession := delS, deletedFile := delF, upstreamCalled := true,
         wroteSession := some entry, wroteFile := some entry })

/-- The file-cache step of fetch_and_analyze_posts (app.py:417-439). -/
def uiFileStep (fileCache : Option CacheEntry) (useCache forceRefresh : Bool)
    (upstream : Except UpErr (List Post)) (gen : List Post → Option Persona)
    (now : String) (delS delF : Bool) : (List Post × Option Persona) × UiEffects :=
  match (if useCache ∧ ¬forceRefresh then fileCache else none) with
  | some c =>
    if hasGeneratedLead c.posts then uiFetchFresh upstream gen now true true
    else
      -- the hit is copied into the session tier (app.py:423) and both tiers
      -- are rewritten when the quality score is backfilled (app.py:435-438)
      let eq := ensureQualityScore c.persona
      ((c.posts, eq.1),
       { deletedSession := delS, deletedFile := delF, upstreamCalled := eq.2,
         wroteSession := some (if eq.2 then { c with persona := eq.1 } else c),
         wroteFile := if eq.2 then some { c with persona := eq.1 } else none })
  | none => uiFetchFresh upstream gen now delS delF

/-- fetch_and_analyze_posts (app.py:371-528). -/
def fetchAndAnalyzePosts (session fileCache : Option CacheEntry)
    (useCache forceRefresh : Bool) (upstream : Except UpErr (List Post))
    (gen : List Post → Option Persona) (now : String) :
    (List Post × Option Persona) × UiEffects :=
  match (if forceRefresh then none else session) with
  | some d =>
    if hasGeneratedLead d.posts then
      -- contaminated session entry: both tiers dropped, then a fresh fetch
      -- through the (now empty) file-cache step (app.py:402-407)
      uiFileStep none useCache forceRefresh upstream gen now true true
    else
      let eq := ensureQualityScore d.persona
      ((d.posts, eq.1),
       { deletedSession := false, deletedFile := false, upstreamCalled := eq.2,
         wroteSession := if eq.2 then some { d with persona := eq.1 } else none,
         wroteFile := if eq.2 then some { d with persona := eq.1 } else none })
  | none => uiFileStep fileCache useCache forceRefresh upstream gen now false false

/-! ### Cache and orchestrator lemmas -/

theorem fetchFresh_effects (up : Except UpErr (List Post))
    (gen : List Post → Option Persona) (now : String) (d : Bool) :
    (fetchFresh up gen now d).2.deletedCache = d ∧
    (fetchFresh up gen now d).2.upstreamCalled = true ∧
    (fetchFresh up gen now d).1.status ≠ FetchStatus.cached := by
  rcases up with e | posts
  · simp [fetchFresh]
  · by_cases h : posts.isEmpty <;> simp [fetchFresh, h]

theorem uiFetchFresh_effects (up : Except UpErr (List Post))
    (gen : List Post → Option Persona) (now : String) (delS : Bool) :
    (uiFetchFresh up gen now delS true).2.deletedSession = delS ∧
    (uiFetchFresh up gen now delS true).2.deletedFile = true ∧
    (uiFetchFresh up gen now delS true).2.upstreamCalled = true := by
  rcases up with e | posts
  · simp [uiFetchFresh]
  · by_cases h : posts.isEmpty
    · simp [uiFetchFresh, h]
    · by_cases hg : hasGeneratedLead posts <;> simp [uiFetchFresh, h, hg]

theorem fetchFresh_wrote (up : Except UpErr (List Post))
    (gen : List Post → Option Persona) (now : String) (d : Bool) (e : CacheEntry)
    (hw : (fetchFresh up gen now d).2.wrote = some e) :
    (e.persona = none ∨ ∃ p, e.persona = some p ∧ p.hasQualityScore = true) ∧
    e.posts = (fetchFresh up gen now d).1.posts ∧
    e.source = some (fetchFresh up gen now d).1.source := by
  rcases up with err | posts
  · simp [fetchFresh] at hw
  · by_cases h : posts.isEmpty
    · simp [fetchFresh, h] at hw
    · simp only [fetchFresh, h, Bool.false_eq_true, if_false] at hw ⊢
      simp at hw
      subst hw
      refine ⟨?_, rfl, rfl⟩
      cases hg : gen posts with
      | none => exact Or.inl (by simp [hg])
      | some q => exact Or.inr ⟨attachQuality q, by simp [hg], rfl⟩

theorem ensureQualityScore_noop (p : Option Persona)
    (h : p = none ∨ ∃ q, p = some q ∧ q.hasQualityScore = true) :
    ensureQualityScore p = (p, false) := by
  rcases h with rfl | ⟨q, rfl, hq⟩
  · rfl
  · simp [ensureQualityScore, hq]

/-- C1: a cached entry whose lead post id carries a sample_/generated_ marker
is never served: the CLI read deletes the cache file and re-fetches
(status is not Cached), a contaminated session entry is dropped from both
tiers before the genuine re-fetch, and a contaminated file entry likewise. -/
theorem C1_contamination_invalidate :
    (∀ (c : CacheEntry) (up : Except UpErr (List Post))
        (gen : List Post → Option Persona) (now : String),
      hasGeneratedLead c.posts = true →
      (fetchAccountData (some c) false up gen now).2.deletedCache = true ∧
      (fetchAccountData (some c) false up gen now).2.upstreamCalled = true ∧
      (fetchAccountData (some c) false up gen now).1.status ≠ FetchStatus.cached) ∧
    (∀ (c : CacheEntry) (fileC : Option CacheEntry) (useCache : Bool)
        (up : Except UpErr (List Post)) (gen : List Post → Option Persona)
        (now : String),
      hasGeneratedLead c.posts = true →
      (fetchAndAnalyzePosts (some c) fileC useCache false up gen now).2.deletedSession = true ∧
      (fetchAndAnalyzePosts (some c) fileC useCache false up gen now).2.deletedFile = true ∧
      (fetchAndAnalyzePosts (some c) fileC useCache false up gen now).2.upstreamCalled = true) ∧
    (∀ (c : CacheEntry) (up : Except UpErr (List Post))
        (gen : List Post → Option Persona) (now : String),
      hasGeneratedLead c.posts = true →
      (fetchAndAnalyzePosts none (some c) true false up gen now).2.deletedSession = true ∧
      (fetchAndAnalyzePosts none (some c) true false up gen now).2.deletedFile = true ∧
      (fetchAndAnalyzePosts none (some c) true false up gen now).2.upstreamCalled = true) := by
  refine ⟨fun c up gen now h => ?_, fun c fileC useCache up gen now h => ?_,
    fun c up gen now h => ?_⟩
  · have heq : fetchAccountData (some c) false up gen now = fetchFresh up gen now true := by
      simp [fetchAccountData, h]
    rw [heq]
    exact fetchFresh_effects up gen now true
  · have heq : fetchAndAnalyzePosts (some c) fileC useCache false up gen now =
        uiFetchFresh up gen now true true := by
      simp [fetchAndAnalyzePosts, h, uiFileStep]
    rw [heq]
    exact uiFetchFresh_effects up gen now true
  · have heq : fetchAndAnalyzePosts none (some c) true false up gen now =
        uiFetchFresh up gen now true true := by
      simp [fetchAndAnalyzePosts, uiFileStep, h]
    rw [heq]
    exact uiFetchFresh_effects up gen now true

/-- The contaminated fixture of the spec: lead post id has the sample_
prefix. -/
def contaminatedEntry : CacheEntry :=
  { posts := [{ id := "sample_1", text := "t", link := "u", date := "2024-01-01" }],
    persona := none, fetched_at := "2024-01-02", source := some "generated" }

/-- Witness for C1: the contaminated fixture is invalidated on every read
path and the re-fetch attempt is issued. -/
theorem C1_contamination_witness :
    ((fetchAccountData (some contaminatedEntry) false (.ok []) (fun _ => none)
        "now").2.deletedCache = true ∧
      (fetchAccountData (some contaminatedEntry) false (.ok []) (fun _ => none)
        "now").2.upstreamCalled = true ∧
      (fetchAccountData (some contaminatedEntry) false (.ok []) (fun _ => none)
        "now").1.status ≠ FetchStatus.cached) ∧
    ((fetchAndAnalyzePosts none (some contaminatedEntry) true false (.ok [])
        (fun _ => none) "now").2.deletedSession = true ∧
      (fetchAndAnalyzePosts none (some contaminatedEntry) true false (.ok [])
        (fun _ => none) "now").2.deletedFile = true ∧
      (fetchAndAnalyzePosts none (some contaminatedEntry) true false (.ok [])
        (fun _ => none) "now").2.upstreamCalled = true) :=
  ⟨C1_contamination_invalidate.1 contaminatedEntry (.ok []) (fun _ => none) "now"
      (by decide),
   C1_contamination_invalidate.2.2 contaminatedEntry (.ok []) (fun _ => none) "now"
      (by decide)⟩

/-- C4: a valid uncontaminated cache entry short-circuits the fetch: the CLI
returns exactly the cached posts/persona with status Cached and the stored
source (default "unknown"), with no upstream call and no cache mutation; a
successful fetch always writes an entry whose persona is empty or already
scored, whose posts and source match the returned result; and on such an
entry both UI cache tiers likewise return exactly the cached posts/persona
with no upstream call. -/
theorem C4_idempotent_refetch :
    (∀ (c : CacheEntry) (up : Except UpErr (List Post))
        (gen : List Post → Option Persona) (now : String),
      hasGeneratedLead c.posts = false →
      fetchAccountData (some c) false up gen now =
        ({ posts := c.posts, persona := c.persona, status := .cached,
           source := c.source.getD "unknown" },
         { deletedCache := false, upstreamCalled := false, wrote := none })) ∧
    (∀ (cached : Option CacheEntry) (force : Bool)
        (up : Except UpErr (List Post)) (gen : List Post → Option Persona)
        (now : String) (e : CacheEntry),
      (fetchAccountData cached force up gen now).2.wrote = some e →
      (e.persona = none ∨ ∃ p, e.persona = some p ∧ p.hasQualityScore = true) ∧
      e.posts = (fetchAccountData cached force up gen now).1.posts ∧
      e.source = some (fetchAccountData cached force up gen now).1.source) ∧
    (∀ (c : CacheEntry) (fileC : Option CacheEntry) (useCache : Bool)
        (up : Except UpErr (List Post)) (gen : List Post → Option Persona)
        (now : String),
      hasGeneratedLead c.posts = false →
      (c.persona = none ∨ ∃ p, c.persona = some p ∧ p.hasQualityScore = true) →
      fetchAndAnalyzePosts (some c) fileC useCache false up gen now =
        ((c.posts, c.persona),
         { deletedSession := false, deletedFile := false, upstreamCalled := false,
           wroteSession := none, wroteFile := none })) ∧
    (∀ (c : CacheEntry) (up : Except UpErr (List Post))
        (gen : List Post → Option Persona) (now : String),
      hasGeneratedLead c.posts = false →
      (c.persona = none ∨ ∃ p, c.persona = some p ∧ p.hasQualityScore = true) →
      fetchAndAnalyzePosts none (some c) true false up gen now =
        ((c.posts, c.persona),
         { deletedSession := false, deletedFile := false, upstreamCalled := false,
           wroteSession := some c, wroteFile := none })) := by
  refine ⟨fun c up gen now h => ?_, fun cached force up gen now e hw => ?_,
    fun c fileC useCache up gen now h hp => ?_, fun c up gen now h hp => ?_⟩
  · simp [fetchAccountData, h]
  · rcases hcase : (if force then none else cached) with _ | c
    · have heq : fetchAccountData cached force up gen now = fetchFresh up gen now false := by
        simp [fetchAccountData, hcase]
      rw [heq] at hw ⊢
      exact fetchFresh_wrote up gen now false e hw
    · by_cases hg : hasGeneratedLead c.posts
      · have heq : fetchAccountData cached force up gen now = fetchFresh up gen now true := by
          simp [fetchAccountData, hcase, hg]
        rw [heq] at hw ⊢
        exact fetchFresh_wrote up gen now true e hw
      · have heq : fetchAccountData cached force up gen now =
            ({ posts := c.posts, persona := c.persona, status := .cached,
               source := c.source.getD "unknown" },
             { deletedCache := false, upstreamCalled := false, wrote := none }) := by
          simp [fetchAccountData, hcase, hg]
        rw [heq] at hw
        simp at hw
  · have hq := ensureQualityScore_noop c.persona hp
    simp [fetchAndAnalyzePosts, h, hq]
  · have hq := ensureQualityScore_noop c.persona hp
    simp [fetchAndAnalyzePosts, uiFileStep, h, hq]

/-- A clean cached fixture with a scored persona. -/
def cleanEntry : CacheEntry :=
  { posts := [{ id := "1790000000000000001", text := "hello", link := "u",
                date := "2024-05-01" }],
    persona := some { hasQualityScore := true, fields := [("name", "A")] },
    fetched_at := "2024-05-02", source := some "twitter" }

/-- Witness for C4: re-fetching the clean fixture is a pure cache hit on both
the CLI and the UI paths. -/
theorem C4_idempotent_witness :
    fetchAccountData (some cleanEntry) false (.ok []) (fun _ => none) "now" =
      ({ posts := cleanEntry.posts, persona := cleanEntry.persona,
         status := .cached, source := cleanEntry.source.getD "unknown" },
       { deletedCache := false, upstreamCalled := false, wrote := none }) ∧
    fetchAndAnalyzePosts none (some cleanEntry) true false (.ok [])
        (fun _ => none) "now" =
      ((cleanEntry.posts, cleanEntry.persona),
       { deletedSession := false, deletedFile := false, upstreamCalled := false,
         wroteSession := some cleanEntry, wroteFile := none }) :=
  ⟨C4_idempotent_refetch.1 cleanEntry (.ok []) (fun _ => none) "now" (by decide),
   C4_idempotent_refetch.2.2.2 cleanEntry (.ok []) (fun _ => none) "now" (by decide)
     (Or.inr ⟨{ hasQualityScore := true, fields := [("name", "A")] }, rfl, rfl⟩)⟩

/-- C3: fetch_posts tries the strategies in priority order with the
retriable/terminal policy per strategy; all-fail yields the Failed/unknown/[]
result at the fetch_account_data level; and a web-search success is tagged
web_search, never the primary-API tag. -/
theorem C3_strategy_policy :
    (∀ (s : ℕ → AttemptOut) (e : UpErr), s 0 = .err e →
      (e.statusCode = some 401 ∨ e.statusCode = some 403 ∨
       e.statusCode = some 404 ∨ e.statusCode = some 429) →
      runStrategy s = (none, 1)) ∧
    (∀ (s : ℕ → AttemptOut) (e : UpErr), s 0 = .err e →
      shouldRetryError e = true → (runStrategy s).2 = 2) ∧
    (∀ (s1 s2 s3 : ℕ → AttemptOut) (p : List Post) (n1 : ℕ),
      runStrategy s1 = (some p, n1) →
      fetchPosts true s1 s2 s3 = (p, (n1, 0, 0))) ∧
    (∀ (s1 s2 s3 : ℕ → AttemptOut) (p : List Post) (n1 n2 n3 : ℕ),
      runStrategy s1 = (none, n1) → runStrategy s2 = (none, n2) →
      runStrategy s3 = (some p, n3) →
      fetchPosts true s1 s2 s3 = (p, (n1, n2, n3))) ∧
    (∀ (s1 s2 s3 : ℕ → AttemptOut) (n1 n2 n3 : ℕ),
      runStrategy s1 = (none, n1) → runStrategy s2 = (none, n2) →
      runStrategy s3 = (none, n3) →
      (fetchPosts true s1 s2 s3).1 = []) ∧
    (∀ (gen : List Post → Option Persona) (now : String),
      fetchAccountData none false (.ok []) gen now =
        ({ posts := [], persona := none, status := .failed, source := "unknown" },
         { deletedCache := false, upstreamCalled := true, wrote := none })) ∧
    (∀ (account : String) (found : List (String × String)) (limit : ℕ)
        (gen : List Post → Option Persona) (now : String),
      webSearchPosts account found limit ≠ [] →
      (fetchAccountData none false (.ok (webSearchPosts account found limit))
          gen now).1.source = "web_search") := by
  refine ⟨fun s e h0 hterm => ?_, fun s e h0 hretry => ?_,
    fun s1 s2 s3 p n1 h1 => ?_, fun s1 s2 s3 p n1 n2 n3 h1 h2 h3 => ?_,
    fun s1 s2 s3 n1 n2 n3 h1 h2 h3 => ?_, fun gen now => ?_,
    fun account found limit gen now hne => ?_⟩
  · have hsr : shouldRetryError e = false := by
      rw [shouldRetryError, if_pos hterm]
    rw [runStrategy, h0]
    dsimp only
    rw [if_neg (by simp [hsr])]
  · rw [runStrategy, h0]
    dsimp only
    rw [if_pos hretry]
    cases h1 : s 1
    · dsimp only
      split_ifs <;> rfl
    · rfl
  · simp [fetchPosts, h1]
  · simp [fetchPosts, h1, h2, h3]
  · simp [fetchPosts, h1, h2, h3]
  · rfl
  · obtain ⟨p, rest, hps⟩ := List.exists_cons_of_ne_nil hne
    have hlead : strStartsWith p.id "web_search_" = true :=
      webSearchPosts_lead account found limit p (by rw [hps]; exact List.mem_cons_self p rest)
    have hempty : (webSearchPosts account found limit).isEmpty = false := by
      rw [hps]
      rfl
    show (fetchFresh (.ok (webSearchPosts account found limit)) gen now false).1.source
      = "web_search"
    rw [fetchFresh]
    simp only [hempty, Bool.false_eq_true, if_false]
    show sourceOfPosts (webSearchPosts account found limit) = "web_search"
    rw [hps, sourceOfPosts]
    simp [hlead]

/-- Strategies used by the C3 witness: terminal 401, terminal 404, web-search
success. -/
def stratErr401 : ℕ → AttemptOut := fun _ => .err { statusCode := some 401, msg := "auth" }

def stratErr404 : ℕ → AttemptOut := fun _ => .err { statusCode := some 404, msg := "not found" }

def stratWeb : ℕ → AttemptOut := fun _ => .ok (webSearchPosts "alice" [("hi", "2024-01-01")] 20)

/-- Witness for C3: terminal errors on both primary strategies, web-search
success on the fallback; the result carries the web-search posts and the
fetch_account_data result is tagged web_search. -/
theorem C3_strategy_witness :
    runStrategy stratErr401 = (none, 1) ∧
    fetchPosts true stratErr401 stratErr404 stratWeb =
      (webSearchPosts "alice" [("hi", "2024-01-01")] 20, (1, 1, 1)) ∧
    (fetchAccountData none false
        (.ok (webSearchPosts "alice" [("hi", "2024-01-01")] 20))
        (fun _ => none) "now").1.source = "web_search" :=
  ⟨C3_strategy_policy.1 stratErr401 { statusCode := some 401, msg := "auth" } rfl
      (Or.inl rfl),
   C3_strategy_policy.2.2.2.1 stratErr401 stratErr404 stratWeb
      (webSearchPosts "alice" [("hi", "2024-01-01")] 20) 1 1 1
      (by decide) (by decide) (by decide),
   C3_strategy_policy.2.2.2.2.2.2 "alice" [("hi", "2024-01-01")] 20
      (fun _ => none) "now" (by decide)⟩

end PersonaSim
